import Mathlib

/-!
# Verification of the lfest-rs futures-exchange simulator core

A shallow embedding of the position/margin accounting, the P&L math for
linear and inverse futures, the isolated-margin risk engine and the
double-entry transaction ledger, together with theorems settling the
specification claims about them.

Money amounts are modelled as signed integer mantissas scaled by `10^D`
(the source's `Decimal<I, D>` / fixed-point representation); division and
rescaling use banker's rounding (round half to even), the source's stated
rounding policy. Fallible or panicking operations return `Option`.
-/

namespace Lfest

/-- Banker's rounding (round half to even) of the rational `n / d` to an
integer, for a positive denominator `d`; returns `0` on a non-positive
denominator (never used with one). -/
def roundHE (n d : Int) : Int :=
  if 0 < d then
    let q := n.ediv d
    let r := n.emod d
    if 2 * r < d then q
    else if d < 2 * r then q + 1
    else if q % 2 = 0 then q else q + 1
  else 0

/-- Multiplication of two `D`-scaled fixed-point mantissas, rescaled back to
`D` places with banker's rounding. -/
def mulD (D : Nat) (a b : Int) : Int :=
  roundHE (a * b) (10 ^ D : Nat)

/-- Division of two `D`-scaled fixed-point mantissas, producing a `D`-scaled
mantissa with banker's rounding. -/
def divD (D : Nat) (a b : Int) : Int :=
  roundHE (a * (10 ^ D : Nat)) b

/-- The two futures kinds of `FuturesTypes` in `src/types/futures_type.rs`. -/
inductive FuturesTypes where
  | linear
  | inverse
deriving DecidableEq, Repr

/-- `Currency::convert` / `convert_from`: a linear contract quantity (Base)
converts to Quote by multiplication with price, an inverse contract quantity
(Quote) converts to Base by division by price. -/
def convert (ft : FuturesTypes) (D : Nat) (qty price : Int) : Int :=
  match ft with
  | .linear => mulD D qty price
  | .inverse => divD D qty price

/-- `FuturesTypes::pnl` from `src/types/futures_type.rs`: linear is
`convert(qty, exit) - convert(qty, entry)`, inverse is
`convert(qty, entry) - convert(qty, exit)`; the sign of `qty` carries the
side (positive long, negative short). -/
def pnl (ft : FuturesTypes) (D : Nat) (entryPrice exitPrice qty : Int) : Int :=
  match ft with
  | .linear => convert .linear D qty exitPrice - convert .linear D qty entryPrice
  | .inverse => convert .inverse D qty entryPrice - convert .inverse D qty exitPrice

/-- Modelled from the spec: `QuoteCurrency::new_weighted_price` is not under
`src/`; the spec gives `(p1*q1 + p2*q2) / (q1 + q2)`, undefined when
`q1 + q2 = 0`. On `D`-scaled mantissas the exact numerator `p1*q1 + p2*q2`
is `2D`-scaled, so dividing by the `D`-scaled `q1 + q2` with a single
banker's rounding yields the `D`-scaled weighted price. -/
def newWeightedPrice (p1 q1 p2 q2 : Int) : Int :=
  roundHE (p1 * q1 + p2 * q2) (q1 + q2)

section RoundLemmas

private theorem ediv_emod_eq_of (a d q r : Int) (hd : 0 < d) (hr0 : 0 ≤ r)
    (hrd : r < d) (h : a = d * q + r) : a.ediv d = q ∧ a.emod d = r := by
  have h1 : d * (a.ediv d) + a.emod d = a := Int.ediv_add_emod a d
  have h2 : 0 ≤ a.emod d := Int.emod_nonneg a (by omega)
  have h3 : a.emod d < d := Int.emod_lt_of_pos a hd
  have hq : a.ediv d = q := by
    by_contra hne
    rcases lt_or_gt_of_ne hne with hlt | hgt
    · have : a.ediv d + 1 ≤ q := by omega
      have := mul_le_mul_of_nonneg_left this (le_of_lt hd)
      nlinarith
    · have : q + 1 ≤ a.ediv d := by omega
      have := mul_le_mul_of_nonneg_left this (le_of_lt hd)
      nlinarith
  refine ⟨hq, ?_⟩
  rw [hq] at h1
  omega

private theorem neg_ediv_emod (n d : Int) (hd : 0 < d) :
    ((-n).ediv d = -(n.ediv d) ∧ (-n).emod d = 0 ∧ n.emod d = 0) ∨
    ((-n).ediv d = -(n.ediv d) - 1 ∧ (-n).emod d = d - n.emod d ∧ n.emod d ≠ 0) := by
  have h1 : d * (n.ediv d) + n.emod d = n := Int.ediv_add_emod n d
  have h2 : 0 ≤ n.emod d := Int.emod_nonneg n (by omega)
  have h3 : n.emod d < d := Int.emod_lt_of_pos n hd
  by_cases h0 : n.emod d = 0
  · left
    have := ediv_emod_eq_of (-n) d (-(n.ediv d)) 0 hd le_rfl hd (by
      rw [h0] at h1; rw [Int.mul_neg]; omega)
    exact ⟨this.1, this.2, h0⟩
  · right
    have := ediv_emod_eq_of (-n) d (-(n.ediv d) - 1) (d - n.emod d) hd (by omega)
      (by omega) (by ring_nf; omega)
    exact ⟨this.1, this.2, h0⟩

/-- Banker's rounding is odd: `roundHE (-n) d = -(roundHE n d)`. -/
theorem roundHE_neg (n d : Int) : roundHE (-n) d = -roundHE n d := by
  unfold roundHE
  by_cases hd : 0 < d
  · simp only [if_pos hd]
    rcases neg_ediv_emod n d hd with ⟨hq, hr, hr0⟩ | ⟨hq, hr, hr0⟩
    · simp only [hq, hr, hr0]
      have hlt : (2 : Int) * 0 < d := by omega
      rw [if_pos hlt, if_pos hlt]
    · have h2 : 0 ≤ n.emod d := Int.emod_nonneg n (by omega)
      have h3 : n.emod d < d := Int.emod_lt_of_pos n hd
      simp only [hq, hr]
      by_cases hc1 : 2 * n.emod d < d
      · have hc2 : d < 2 * (d - n.emod d) := by omega
        have hc3 : ¬ (2 * (d - n.emod d) < d) := by omega
        simp only [if_pos hc1, if_neg hc3, if_pos hc2]
        ring
      · by_cases hc2 : d < 2 * n.emod d
        · have hc3 : 2 * (d - n.emod d) < d := by omega
          simp only [if_neg hc1, if_pos hc2, if_pos hc3]
          ring
        · have heq : 2 * n.emod d = d := by omega
          have hc3 : ¬ (2 * (d - n.emod d) < d) := by omega
          have hc4 : ¬ (d < 2 * (d - n.emod d)) := by omega
          simp only [if_neg hc1, if_neg hc2, if_neg hc3, if_neg hc4]
          have hodd : (-(n.ediv d) - 1) % 2 = 0 ↔ ¬ ((n.ediv d) % 2 = 0) := by
            omega
          by_cases he : (n.ediv d) % 2 = 0 <;> (simp [he, hodd]; try omega)
  · simp [if_neg hd]

/-- Banker's rounding of an exact multiple recovers the factor. -/
theorem roundHE_mul_self (a d : Int) (hd : 0 < d) : roundHE (a * d) d = a := by
  unfold roundHE
  have h := ediv_emod_eq_of (a * d) d a 0 hd le_rfl hd (by ring)
  simp only [if_pos hd, h.1, h.2]
  have : (2 : Int) * 0 < d := by omega
  rw [if_pos this]

end RoundLemmas

/-! ## Transaction accounting ledger

Modelled from the spec: the accounting module (`Transaction`,
`TransactionAccounting`, `InMemoryTransactionAccounting`, the account-id
constants) is not under `src/`; only its callers and tests are. The spec
describes a double-entry register over the four accounts whose
`create_margin_transfer` fails with `InsufficientBalance` when the paying
account is `USER_WALLET` or `USER_POSITION_MARGIN` and the debit would
drive its balance below zero, posts both legs atomically otherwise, and
lets `TREASURY` and `EXCHANGE_FEE` run unbounded debits. The direction
convention of `Transaction::new(a, b, amount)` — the first account
receives the amount, the second pays it — is fixed by the balance
assertions in the `position_inner.rs` tests under `src/` (e.g. after
`Transaction::new(USER_POSITION_MARGIN_ACCOUNT, USER_WALLET_ACCOUNT,
margin)` the tests assert the wallet decreased by `margin`). -/

/-- The four internal ledger accounts. -/
inductive AccountId where
  | userWallet
  | userPositionMargin
  | exchangeFee
  | treasury
deriving DecidableEq, Repr

/-- The ledger: a margin-currency balance per internal account. -/
structure Ledger where
  wallet : Int
  posMargin : Int
  feeAccount : Int
  treasury : Int
deriving DecidableEq, Repr

/-- `margin_balance_of`. -/
def Ledger.balanceOf (l : Ledger) : AccountId → Int
  | .userWallet => l.wallet
  | .userPositionMargin => l.posMargin
  | .exchangeFee => l.feeAccount
  | .treasury => l.treasury

/-- Add `amt` to one account's balance. -/
def Ledger.addTo (l : Ledger) (a : AccountId) (amt : Int) : Ledger :=
  match a with
  | .userWallet => { l with wallet := l.wallet + amt }
  | .userPositionMargin => { l with posMargin := l.posMargin + amt }
  | .exchangeFee => { l with feeAccount := l.feeAccount + amt }
  | .treasury => { l with treasury := l.treasury + amt }

/-- Modelled from the spec: `create_margin_transfer` for a
`Transaction::new(debit, credit, amount)` — the debit account receives
`amount` from the credit account; fails (`InsufficientBalance`) when the
credit account is the user wallet or the user position margin and paying
would drive its balance below zero; otherwise both legs post atomically. -/
def createMarginTransfer (l : Ledger) (debit credit : AccountId) (amount : Int) :
    Option Ledger :=
  if (credit = .userWallet ∨ credit = .userPositionMargin) ∧
      l.balanceOf credit - amount < 0 then
    none
  else
    some ((l.addTo credit (-amount)).addTo debit amount)

/-- Initial ledger: the starting wallet balance sits in `USER_WALLET`. -/
def Ledger.init (startingWalletBalance : Int) : Ledger :=
  ⟨startingWalletBalance, 0, 0, 0⟩

/-- Sum of the four account balances. -/
def Ledger.total (l : Ledger) : Int :=
  l.wallet + l.posMargin + l.feeAccount + l.treasury

/-! ## Position model (`src/position_inner.rs`)

The state of `PositionInner` plus the ledger. Assertions (`assert!`,
`assert2::assert!`, `debug_assert!`) and `.expect` on ledger transfers are
panics in the source; the embedding returns `none` where the source would
panic. -/

/-- `PositionInner`: contracts, weighted-average entry price, accrued fees
(all as `D`-scaled mantissas; `quantity` is in the contract currency of the
futures kind, `outstandingFees` in the margin currency). -/
structure PositionInner where
  quantity : Int
  entryPrice : Int
  outstandingFees : Int
deriving DecidableEq, Repr

/-- `PositionInner::new` from `src/position_inner.rs`: asserts positive
quantity and entry price (and the `debug_assert!`ed bounds
`0 < init_margin_req ≤ 1`), locks `convert_from(quantity, entry_price) *
init_margin_req` of margin from the wallet into the position-margin
account, and records the fill's fees as outstanding. -/
def PositionInner.new (ft : FuturesTypes) (D : Nat) (quantity entryPrice : Int)
    (l : Ledger) (initMarginReq fees : Int) : Option (PositionInner × Ledger) :=
  if quantity ≤ 0 then none
  else if entryPrice ≤ 0 then none
  else if initMarginReq ≤ 0 then none
  else if ((10 ^ D : Nat) : Int) < initMarginReq then none
  else
    let margin := mulD D (convert ft D quantity entryPrice) initMarginReq
    (createMarginTransfer l .userPositionMargin .userWallet margin).map
      fun l' => (⟨quantity, entryPrice, fees⟩, l')

/-- `PositionInner::increase_contracts`: asserts positive quantity and
price, recomputes the weighted entry price, accrues the fee, and locks
`convert_from(qty, entry_price) * init_margin_req` additional margin. -/
def PositionInner.increaseContracts (ft : FuturesTypes) (D : Nat)
    (pos : PositionInner) (qty entryPrice : Int) (l : Ledger)
    (initMarginReq fees : Int) : Option (PositionInner × Ledger) :=
  if qty ≤ 0 then none
  else if entryPrice ≤ 0 then none
  else
    let value := convert ft D qty entryPrice
    let newEntryPrice := newWeightedPrice pos.entryPrice pos.quantity entryPrice qty
    let margin := mulD D value initMarginReq
    (createMarginTransfer l .userPositionMargin .userWallet margin).map
      fun l' =>
        (⟨pos.quantity + qty, newEntryPrice, pos.outstandingFees + fees⟩, l')

/-- `PositionInner::decrease_contracts`: asserts `0 < qty ≤ quantity` and
`direction_multiplier ∈ {1, -1}`, realizes
`pnl(entry, liquidation_price, ±qty)` against the treasury, frees
`convert_from(qty, entry_price) * init_margin_req` margin back to the
wallet (the source `debug_assert!`s it positive), and settles the accrued
outstanding fees from the wallet when they are strictly positive. -/
def PositionInner.decreaseContracts (ft : FuturesTypes) (D : Nat)
    (pos : PositionInner) (qty liquidationPrice : Int) (l : Ledger)
    (initMarginReq : Int) (directionMultiplier : Int) (fees : Int) :
    Option (PositionInner × Ledger) :=
  if qty ≤ 0 then none
  else if pos.quantity < qty then none
  else if ¬ (directionMultiplier = 1 ∨ directionMultiplier = -1) then none
  else
    let entryPrice := pos.entryPrice
    let quantity' := pos.quantity - qty
    let outstanding := pos.outstandingFees + fees
    let realized := pnl ft D entryPrice liquidationPrice
      (if directionMultiplier = 1 then qty else -qty)
    let afterPnl : Option Ledger :=
      if 0 < realized then
        createMarginTransfer l .userWallet .treasury realized
      else if realized < 0 then
        createMarginTransfer l .treasury .userWallet (-realized)
      else some l
    afterPnl.bind fun l1 =>
      let marginToFree := mulD D (convert ft D qty entryPrice) initMarginReq
      if marginToFree ≤ 0 then none
      else
        (createMarginTransfer l1 .userWallet .userPositionMargin marginToFree).bind
          fun l2 =>
            if 0 < outstanding then
              (createMarginTransfer l2 .exchangeFee .userWallet outstanding).map
                fun l3 => (⟨quantity', entryPrice, 0⟩, l3)
            else some (⟨quantity', entryPrice, outstanding⟩, l2)

/-! ## Risk engine (`src/risk_engine.rs`) -/

/-- `RiskError` from `src/risk_engine.rs`. -/
inductive RiskError where
  | notEnoughAvailableBalance
  | liquidate
deriving DecidableEq, Repr

/-- The market-state fields the maintenance check reads; the mid price is
`(bid + ask) / 2` with banker's rounding (spec §3/C4). -/
structure MarketState where
  bid : Int
  ask : Int
deriving DecidableEq, Repr

/-- `MarketState::mid_price`. -/
def MarketState.midPrice (ms : MarketState) : Int :=
  roundHE (ms.bid + ms.ask) 2

/-- The account fields read by `check_maintenance_margin`: the position's
size and the position margin balance. -/
structure Account where
  posSize : Int
  positionMargin : Int
deriving DecidableEq, Repr

/-- `IsolatedMarginRiskEngine::check_maintenance_margin` from
`src/risk_engine.rs`: values the position at the mid price and returns
`Liquidate` when that value is strictly below the position margin. -/
def checkMaintenanceMargin (ft : FuturesTypes) (D : Nat) (ms : MarketState)
    (acc : Account) : Except RiskError Unit :=
  let posValue := convert ft D acc.posSize ms.midPrice
  if posValue < acc.positionMargin then .error .liquidate else .ok ()

/-- Modelled from the spec: the maintenance margin of a position,
`notional * maintenance_rate` (spec §4.5); used only to state the original
claim C1, which adds this amount to the threshold. -/
def maintenanceMarginOf (D : Nat) (notional maintenanceRate : Int) : Int :=
  mulD D notional maintenanceRate

/-! ## Config construction -/

/-- The typed `Config::new` errors listed by the spec (§6). -/
inductive ConfigError where
  | invalidFee
  | invalidLeverage
  | invalidMargin
  | invalidFilter
deriving DecidableEq, Repr

/-- The contract-specification fields relevant to the margin validation,
as used by `mock_exchange` in `src/mock_exchange.rs`. -/
structure ContractSpecification where
  initialMargin : Int
  maintenanceMargin : Int
deriving DecidableEq, Repr

/-- Modelled from the spec: `Config::new` is not under `src/` (only its
caller `mock_exchange` is). Per spec §6 the constructor fails with
`InvalidLeverage` unless `1 ≤ leverage ≤ 125`, with `InvalidMargin` when a
margin rate leaves `(0, 1]` or when `maintenance ≥ initial`. The margin
rates are `D`-scaled mantissas. -/
def Config.new (D : Nat) (leverage : Nat) (cs : ContractSpecification) :
    Except ConfigError ContractSpecification :=
  if leverage < 1 ∨ 125 < leverage then .error .invalidLeverage
  else if cs.initialMargin ≤ 0 ∨ ((10 ^ D : Nat) : Int) < cs.initialMargin then
    .error .invalidMargin
  else if cs.maintenanceMargin ≤ 0 ∨ ((10 ^ D : Nat) : Int) < cs.maintenanceMargin then
    .error .invalidMargin
  else if cs.initialMargin ≤ cs.maintenanceMargin then .error .invalidMargin
  else .ok cs

/-! ## Helper lemmas about the ledger and the position operations -/

theorem Ledger.addTo_total (l : Ledger) (a : AccountId) (x : Int) :
    (l.addTo a x).total = l.total + x := by
  cases a <;> simp [Ledger.addTo, Ledger.total] <;> ring

theorem createMarginTransfer_eq {l l' : Ledger} {a b : AccountId} {amt : Int}
    (h : createMarginTransfer l a b amt = some l') :
    l' = (l.addTo b (-amt)).addTo a amt := by
  unfold createMarginTransfer at h
  split at h
  · exact absurd h (by simp)
  · exact (Option.some_inj.mp h).symm

theorem createMarginTransfer_total {l l' : Ledger} {a b : AccountId} {amt : Int}
    (h : createMarginTransfer l a b amt = some l') : l'.total = l.total := by
  rw [createMarginTransfer_eq h, Ledger.addTo_total, Ledger.addTo_total]
  ring

theorem createMarginTransfer_isSome {l : Ledger} {a b : AccountId} {amt : Int}
    (h : ¬ ((b = .userWallet ∨ b = .userPositionMargin) ∧ l.balanceOf b - amt < 0)) :
    createMarginTransfer l a b amt =
      some ((l.addTo b (-amt)).addTo a amt) := by
  unfold createMarginTransfer
  rw [if_neg h]

/-- Characterization of a successful `PositionInner::new`. -/
theorem new_spec {ft : FuturesTypes} {D : Nat} {q e : Int} {l : Ledger}
    {imr f : Int} {p' : PositionInner} {l' : Ledger}
    (h : PositionInner.new ft D q e l imr f = some (p', l')) :
    0 < q ∧ 0 < e ∧ 0 < imr ∧ imr ≤ ((10 ^ D : Nat) : Int) ∧
    p' = ⟨q, e, f⟩ ∧
    l' = (l.addTo .userWallet (-(mulD D (convert ft D q e) imr))).addTo
          .userPositionMargin (mulD D (convert ft D q e) imr) := by
  simp only [PositionInner.new] at h
  split at h
  · exact absurd h (by simp)
  · split at h
    · exact absurd h (by simp)
    · split at h
      · exact absurd h (by simp)
      · split at h
        · exact absurd h (by simp)
        · rename_i h1 h2 h3 h4
          cases hc : createMarginTransfer l .userPositionMargin .userWallet
              (mulD D (convert ft D q e) imr) with
          | none => rw [hc] at h; exact absurd h (by simp)
          | some lx =>
            rw [hc] at h
            simp only [Option.map_some'] at h
            obtain ⟨hp, hl⟩ := Prod.mk.injEq .. ▸ Option.some_inj.mp h
            refine ⟨by omega, by omega, by omega, by omega, hp.symm, ?_⟩
            rw [← hl]
            exact createMarginTransfer_eq hc

/-- Characterization of a successful `PositionInner::increase_contracts`. -/
theorem increase_spec {ft : FuturesTypes} {D : Nat} {pos : PositionInner}
    {q e : Int} {l : Ledger} {imr f : Int} {p' : PositionInner} {l' : Ledger}
    (h : PositionInner.increaseContracts ft D pos q e l imr f = some (p', l')) :
    0 < q ∧ 0 < e ∧
    p' = ⟨pos.quantity + q, newWeightedPrice pos.entryPrice pos.quantity e q,
          pos.outstandingFees + f⟩ ∧
    l' = (l.addTo .userWallet (-(mulD D (convert ft D q e) imr))).addTo
          .userPositionMargin (mulD D (convert ft D q e) imr) := by
  simp only [PositionInner.increaseContracts] at h
  split at h
  · exact absurd h (by simp)
  · split at h
    · exact absurd h (by simp)
    · rename_i h1 h2
      cases hc : createMarginTransfer l .userPositionMargin .userWallet
          (mulD D (convert ft D q e) imr) with
      | none => rw [hc] at h; exact absurd h (by simp)
      | some lx =>
        rw [hc] at h
        simp only [Option.map_some'] at h
        obtain ⟨hp, hl⟩ := Prod.mk.injEq .. ▸ Option.some_inj.mp h
        refine ⟨by omega, by omega, hp.symm, ?_⟩
        rw [← hl]
        exact createMarginTransfer_eq hc

/-- Characterization of a successful `PositionInner::decrease_contracts`:
the guards held, the quantity dropped by `qty` at an unchanged entry
price, the realized pnl moved between wallet and treasury, the freed
margin moved from the position-margin account to the wallet, and strictly
positive accrued fees were settled from the wallet into the exchange-fee
account and zeroed. -/
theorem decrease_spec {ft : FuturesTypes} {D : Nat} {pos : PositionInner}
    {qty x : Int} {l : Ledger} {imr dir fee : Int} {p' : PositionInner}
    {l' : Ledger}
    (h : PositionInner.decreaseContracts ft D pos qty x l imr dir fee =
      some (p', l')) :
    0 < qty ∧ qty ≤ pos.quantity ∧ (dir = 1 ∨ dir = -1) ∧
    0 < mulD D (convert ft D qty pos.entryPrice) imr ∧
    p'.quantity = pos.quantity - qty ∧
    p'.entryPrice = pos.entryPrice ∧
    p'.outstandingFees = (if 0 < pos.outstandingFees + fee then 0
      else pos.outstandingFees + fee) ∧
    l'.wallet = l.wallet + pnl ft D pos.entryPrice x (if dir = 1 then qty else -qty)
      + mulD D (convert ft D qty pos.entryPrice) imr
      - (if 0 < pos.outstandingFees + fee then pos.outstandingFees + fee else 0) ∧
    l'.posMargin = l.posMargin - mulD D (convert ft D qty pos.entryPrice) imr ∧
    l'.feeAccount = l.feeAccount
      + (if 0 < pos.outstandingFees + fee then pos.outstandingFees + fee else 0) ∧
    l'.treasury = l.treasury
      - pnl ft D pos.entryPrice x (if dir = 1 then qty else -qty) := by
  simp only [PositionInner.decreaseContracts] at h
  split at h
  · exact absurd h (by simp)
  · split at h
    · exact absurd h (by simp)
    · split at h
      · exact absurd h (by simp)
      · rename_i h1 h2 h3
        set realized := pnl ft D pos.entryPrice x (if dir = 1 then qty else -qty)
          with hreal
        set mtf := mulD D (convert ft D qty pos.entryPrice) imr with hmtf
        refine ?_
        -- the pnl-settling step
        have hstep : ∀ l1 : Ledger,
            (if 0 < realized then
                createMarginTransfer l .userWallet .treasury realized
              else if realized < 0 then
                createMarginTransfer l .treasury .userWallet (-realized)
              else some l) = some l1 →
            l1.wallet = l.wallet + realized ∧ l1.posMargin = l.posMargin ∧
            l1.feeAccount = l.feeAccount ∧ l1.treasury = l.treasury - realized := by
          intro l1 hl1
          split at hl1
          · rw [createMarginTransfer_eq hl1]
            simp [Ledger.addTo]
            omega
          · split at hl1
            · rw [createMarginTransfer_eq hl1]
              simp [Ledger.addTo]
              omega
            · rename_i hg1 hg2
              have : realized = 0 := by omega
              rw [Option.some_inj.mp hl1.symm, this]
              simp
        cases hpn : (if 0 < realized then
            createMarginTransfer l .userWallet .treasury realized
          else if realized < 0 then
            createMarginTransfer l .treasury .userWallet (-realized)
          else some l) with
        | none => rw [hpn] at h; exact absurd h (by simp)
        | some l1 =>
          rw [hpn] at h
          simp only [Option.some_bind] at h
          obtain ⟨hw1, hm1, hf1, ht1⟩ := hstep l1 hpn
          split at h
          · exact absurd h (by simp)
          · rename_i h4
            cases hmt : createMarginTransfer l1 .userWallet .userPositionMargin mtf with
            | none => rw [hmt] at h; exact absurd h (by simp)
            | some l2 =>
              rw [hmt] at h
              simp only [Option.some_bind] at h
              have hl2 := createMarginTransfer_eq hmt
              have hw2 : l2.wallet = l1.wallet + mtf := by
                rw [hl2]; simp [Ledger.addTo]
              have hm2 : l2.posMargin = l1.posMargin - mtf := by
                rw [hl2]; simp [Ledger.addTo]; omega
              have hf2 : l2.feeAccount = l1.feeAccount := by
                rw [hl2]; simp [Ledger.addTo]
              have ht2 : l2.treasury = l1.treasury := by
                rw [hl2]; simp [Ledger.addTo]
              split at h
              · rename_i h5
                cases hft : createMarginTransfer l2 .exchangeFee .userWallet
                    (pos.outstandingFees + fee) with
                | none => rw [hft] at h; exact absurd h (by simp)
                | some l3 =>
                  rw [hft] at h
                  simp only [Option.map_some'] at h
                  obtain ⟨hp, hl⟩ := Prod.mk.injEq .. ▸ Option.some_inj.mp h
                  have hl3 := createMarginTransfer_eq hft
                  subst hl
                  rw [← hp]
                  refine ⟨by omega, by omega, not_not.mp h3, by omega, rfl, rfl,
                    by simp [h5], ?_, ?_, ?_, ?_⟩
                  · rw [hl3]; simp [Ledger.addTo, if_pos h5]; omega
                  · rw [hl3]; simp [Ledger.addTo, if_pos h5]; omega
                  · rw [hl3]; simp [Ledger.addTo, if_pos h5]; omega
                  · rw [hl3]; simp [Ledger.addTo, if_pos h5]; omega
              · rename_i h5
                obtain ⟨hp, hl⟩ := Prod.mk.injEq .. ▸ Option.some_inj.mp h
                subst hl
                rw [← hp]
                refine ⟨by omega, by omega, not_not.mp h3, by omega, rfl, rfl,
                  by simp [h5], ?_, ?_, ?_, ?_⟩
                · rw [if_neg h5]; omega
                · omega
                · rw [if_neg h5]; omega
                · omega

/-! ## Sequences of position operations -/

/-- A single position operation with its fill data. -/
inductive Op where
  | openPos (qty price fee : Int)
  | increase (qty price fee : Int)
  | decrease (qty price dir fee : Int)

/-- Apply one operation to the position-and-ledger state; `none` models a
panic or failed transfer inside the operation. -/
def applyOp (ft : FuturesTypes) (D : Nat) (imr : Int)
    (s : PositionInner × Ledger) : Op → Option (PositionInner × Ledger)
  | .openPos q p f => PositionInner.new ft D q p s.2 imr f
  | .increase q p f => PositionInner.increaseContracts ft D s.1 q p s.2 imr f
  | .decrease q p dir f => PositionInner.decreaseContracts ft D s.1 q p s.2 imr dir f

/-- Apply a list of operations in order, stopping at the first failure. -/
def applyOps (ft : FuturesTypes) (D : Nat) (imr : Int)
    (s : PositionInner × Ledger) : List Op → Option (PositionInner × Ledger)
  | [] => some s
  | op :: rest =>
    (applyOp ft D imr s op).bind fun s1 => applyOps ft D imr s1 rest

/-- The flat initial state: no position, the whole starting balance in the
user wallet. -/
def initialState (startingWalletBalance : Int) : PositionInner × Ledger :=
  (⟨0, 0, 0⟩, Ledger.init startingWalletBalance)

theorem applyOp_total {ft : FuturesTypes} {D : Nat} {imr : Int}
    {s s' : PositionInner × Ledger} {op : Op}
    (h : applyOp ft D imr s op = some s') : s'.2.total = s.2.total := by
  cases op with
  | openPos q p f =>
    obtain ⟨p1, l1⟩ := s'
    obtain ⟨-, -, -, -, -, hl⟩ := new_spec h
    simp only [hl, Ledger.addTo_total]
    ring
  | increase q p f =>
    obtain ⟨p1, l1⟩ := s'
    obtain ⟨-, -, -, hl⟩ := increase_spec h
    simp only [hl, Ledger.addTo_total]
    ring
  | decrease q p dir f =>
    obtain ⟨p1, l1⟩ := s'
    obtain ⟨-, -, -, -, -, -, -, hw, hm, hf, ht⟩ := decrease_spec h
    simp only [Ledger.total, hw, hm, hf, ht]
    omega

theorem applyOps_total {ft : FuturesTypes} {D : Nat} {imr : Int} {ops : List Op} :
    ∀ {s s' : PositionInner × Ledger},
      applyOps ft D imr s ops = some s' → s'.2.total = s.2.total := by
  induction ops with
  | nil =>
    intro s s' h
    simp only [applyOps, Option.some_inj] at h
    rw [← h]
  | cons op ops ih =>
    intro s s' h
    simp only [applyOps] at h
    cases hc : applyOp ft D imr s op with
    | none => rw [hc] at h; exact absurd h (by simp)
    | some s1 =>
      rw [hc] at h
      simp only [Option.some_bind] at h
      rw [ih h, applyOp_total hc]

/-! ## Success (no-panic) conditions for the operations -/

theorem new_isSome {ft : FuturesTypes} {D : Nat} {q e : Int} {l : Ledger}
    {imr f : Int} (hq : 0 < q) (he : 0 < e) (h1 : 0 < imr)
    (h2 : imr ≤ ((10 ^ D : Nat) : Int))
    (hw : mulD D (convert ft D q e) imr ≤ l.wallet) :
    (PositionInner.new ft D q e l imr f).isSome := by
  simp only [PositionInner.new, if_neg (by omega : ¬ q ≤ 0),
    if_neg (by omega : ¬ e ≤ 0), if_neg (by omega : ¬ imr ≤ 0),
    if_neg (by omega : ¬ ((10 ^ D : Nat) : Int) < imr)]
  rw [createMarginTransfer_isSome]
  · simp
  · simp only [Ledger.balanceOf]
    intro hcon
    rcases hcon with ⟨-, hlt⟩
    omega

theorem increase_isSome {ft : FuturesTypes} {D : Nat} {pos : PositionInner}
    {q e : Int} {l : Ledger} {imr f : Int} (hq : 0 < q) (he : 0 < e)
    (hw : mulD D (convert ft D q e) imr ≤ l.wallet) :
    (PositionInner.increaseContracts ft D pos q e l imr f).isSome := by
  simp only [PositionInner.increaseContracts, if_neg (by omega : ¬ q ≤ 0),
    if_neg (by omega : ¬ e ≤ 0)]
  rw [createMarginTransfer_isSome]
  · simp
  · simp only [Ledger.balanceOf]
    intro hcon
    rcases hcon with ⟨-, hlt⟩
    omega

theorem decrease_isSome {ft : FuturesTypes} {D : Nat} {pos : PositionInner}
    {qty x : Int} {l : Ledger} {imr dir fee : Int}
    (hq : 0 < qty) (hle : qty ≤ pos.quantity) (hdir : dir = 1 ∨ dir = -1)
    (hmtf : 0 < mulD D (convert ft D qty pos.entryPrice) imr)
    (hpm : mulD D (convert ft D qty pos.entryPrice) imr ≤ l.posMargin)
    (hploss : pnl ft D pos.entryPrice x (if dir = 1 then qty else -qty) < 0 →
      -(pnl ft D pos.entryPrice x (if dir = 1 then qty else -qty)) ≤ l.wallet)
    (hfee : 0 < pos.outstandingFees + fee →
      pos.outstandingFees + fee ≤
        l.wallet + pnl ft D pos.entryPrice x (if dir = 1 then qty else -qty)
          + mulD D (convert ft D qty pos.entryPrice) imr) :
    (PositionInner.decreaseContracts ft D pos qty x l imr dir fee).isSome := by
  simp only [PositionInner.decreaseContracts, if_neg (by omega : ¬ qty ≤ 0),
    if_neg (by omega : ¬ pos.quantity < qty),
    if_neg (not_not.mpr hdir)]
  set realized := pnl ft D pos.entryPrice x (if dir = 1 then qty else -qty)
    with hreal
  set mtf := mulD D (convert ft D qty pos.entryPrice) imr with hmtf2
  have hstep : ∃ l1 : Ledger,
      (if 0 < realized then
          createMarginTransfer l .userWallet .treasury realized
        else if realized < 0 then
          createMarginTransfer l .treasury .userWallet (-realized)
        else some l) = some l1 ∧
      l1.wallet = l.wallet + realized ∧ l1.posMargin = l.posMargin := by
    by_cases hg1 : 0 < realized
    · rw [if_pos hg1, createMarginTransfer_isSome (by simp [Ledger.balanceOf])]
      exact ⟨_, rfl, by simp [Ledger.addTo], by simp [Ledger.addTo]⟩
    · by_cases hg2 : realized < 0
      · rw [if_neg hg1, if_pos hg2,
          createMarginTransfer_isSome (by
            simp only [Ledger.balanceOf]
            intro hcon
            rcases hcon with ⟨-, hlt⟩
            have := hploss hg2
            omega)]
        exact ⟨_, rfl, by simp [Ledger.addTo], by simp [Ledger.addTo]⟩
      · rw [if_neg hg1, if_neg hg2]
        exact ⟨l, rfl, by omega, rfl⟩
  obtain ⟨l1, hl1, hw1, hm1⟩ := hstep
  rw [hl1]
  simp only [Option.some_bind, if_neg (by omega : ¬ mtf ≤ 0)]
  have hmt : createMarginTransfer l1 .userWallet .userPositionMargin mtf =
      some ((l1.addTo .userPositionMargin (-mtf)).addTo .userWallet mtf) := by
    apply createMarginTransfer_isSome
    simp only [Ledger.balanceOf]
    intro hcon
    rcases hcon with ⟨-, hlt⟩
    omega
  rw [hmt]
  simp only [Option.some_bind]
  split
  · rename_i h5
    rw [createMarginTransfer_isSome (by
      simp only [Ledger.balanceOf, Ledger.addTo]
      intro hcon
      rcases hcon with ⟨-, hlt⟩
      have := hfee h5
      omega)]
    simp
  · simp

/-! ## Claim theorems -/

/-- C1 (amended): `check_maintenance_margin` returns `Liquidate` exactly
when the mark notional of the position, valued at the mid price, is
strictly less than the position margin alone; the maintenance margin is
not added to the threshold (the contract's maintenance rate is unused by
the check in `src/risk_engine.rs`). -/
theorem claim_C1 (ft : FuturesTypes) (D : Nat) (ms : MarketState) (acc : Account) :
    checkMaintenanceMargin ft D ms acc = .error .liquidate ↔
      convert ft D acc.posSize ms.midPrice < acc.positionMargin := by
  simp only [checkMaintenanceMargin]
  split
  · rename_i hlt
    simp [hlt]
  · rename_i hlt
    simp [hlt]

/-- C1 counterexample: a linear position of size 1 marked at mid 100 with
position margin 100 and maintenance rate 1 (scale `D = 0`) satisfies
`mark_notional < position_margin + maintenance_margin` (100 < 200), yet
the code returns `Ok`, so the claimed threshold `position_margin +
maintenance_margin` is not the one the code uses. -/
theorem claim_C1_counterexample :
    checkMaintenanceMargin .linear 0 ⟨100, 100⟩ ⟨1, 100⟩ = .ok () ∧
    convert .linear 0 1 (MarketState.midPrice ⟨100, 100⟩) <
      100 + maintenanceMarginOf 0 (convert .linear 0 1 (MarketState.midPrice ⟨100, 100⟩)) 1 := by
  constructor
  · rfl
  · decide

/-- C2: after any successful sequence of position operations starting from
the flat initial state, the sum of the four account balances equals the
starting wallet balance — every value movement is a double-entry transfer
that posts both legs or neither. -/
theorem claim_C2 {ft : FuturesTypes} {D : Nat} {imr W : Int} {ops : List Op}
    {s' : PositionInner × Ledger}
    (h : applyOps ft D imr (initialState W) ops = some s') :
    s'.2.total = W := by
  have := applyOps_total h
  simpa [initialState, Ledger.init, Ledger.total] using this

/-- C2 witness: opening 1 contract at 100 and closing it at 110 (scale
`D = 0`, full initial margin) leaves the four balances summing to the
starting 1000. -/
theorem claim_C2_witness : Ledger.total ⟨1010, 0, 0, -10⟩ = 1000 :=
  @claim_C2 .linear 0 1 1000 [.openPos 1 100 0, .decrease 1 110 1 0]
    (⟨0, 100, 0⟩, ⟨1010, 0, 0, -10⟩) (by decide)

/-- C3: the inverse-futures pnl is
`convert_from(qty, entry) - convert_from(qty, exit)` where `convert_from`
divides the quantity by the price with banker's rounding to `D` places,
and negating the quantity (short instead of long) negates the pnl. -/
theorem claim_C3 (D : Nat) (e x q : Int) :
    pnl .inverse D e x q = divD D q e - divD D q x ∧
    pnl .inverse D e x (-q) = -(pnl .inverse D e x q) := by
  constructor
  · rfl
  · show divD D (-q) e - divD D (-q) x = -(divD D q e - divD D q x)
    simp only [divD, neg_mul]
    rw [roundHE_neg, roundHE_neg]
    ring

/-- C4 (amended): in `decrease_contracts`, when the accrued outstanding
fees are strictly positive after adding the reducing fill's fee, the full
amount is transferred from the USER_WALLET account into the EXCHANGE_FEE
account (the wallet pays; the claim had the direction reversed) and
`outstanding_fees` is zeroed; otherwise no fee transfer occurs. -/
theorem claim_C4 {ft : FuturesTypes} {D : Nat} {pos : PositionInner}
    {qty x : Int} {l : Ledger} {imr dir fee : Int} {p' : PositionInner}
    {l' : Ledger}
    (h : PositionInner.decreaseContracts ft D pos qty x l imr dir fee =
      some (p', l')) :
    (0 < pos.outstandingFees + fee →
      l'.feeAccount = l.feeAccount + (pos.outstandingFees + fee) ∧
      p'.outstandingFees = 0) ∧
    (pos.outstandingFees + fee ≤ 0 →
      l'.feeAccount = l.feeAccount ∧
      p'.outstandingFees = pos.outstandingFees + fee) := by
  obtain ⟨-, -, -, -, -, -, hfees, -, -, hf, -⟩ := decrease_spec h
  constructor
  · intro hpos
    rw [hf, hfees, if_pos hpos, if_pos hpos]
    exact ⟨rfl, rfl⟩
  · intro hnonpos
    have hneg : ¬ 0 < pos.outstandingFees + fee := by omega
    rw [hf, hfees, if_neg hneg, if_neg hneg]
    exact ⟨by omega, rfl⟩

/-- C4 counterexample: closing a position carrying 5 of accrued fees makes
the EXCHANGE_FEE balance rise by 5 (the wallet pays 995 instead of
receiving 1005), refuting the claimed transfer direction from EXCHANGE_FEE
to USER_WALLET, which would leave the fee account at −5. -/
theorem claim_C4_counterexample :
    PositionInner.decreaseContracts .linear 0 ⟨1, 100, 5⟩ 1 100 ⟨900, 100, 0, 0⟩ 1 1 0 =
      some (⟨0, 100, 0⟩, ⟨995, 0, 5, 0⟩) ∧
    ¬ ((5 : Int) = 0 - 5) := by
  constructor
  · rfl
  · decide

/-- C4 witness: closing a position carrying 5 of accrued fees transfers
the full 5 into the EXCHANGE_FEE account and zeroes the outstanding
fees. -/
theorem claim_C4_witness :
    (5 : Int) = 0 + (5 + 0) ∧ (0 : Int) = 0 :=
  (@claim_C4 .linear 0 ⟨1, 100, 5⟩ 1 100 ⟨900, 100, 0, 0⟩ 1 1 0 ⟨0, 100, 0⟩
    ⟨995, 0, 5, 0⟩ (by decide)).1 (by decide)

/-- C5 (amended): when a position opened by `new` is closed by a single
full `decrease_contracts`, the quantity is zero, the USER_POSITION_MARGIN
balance returns exactly to its prior value (zero when it started at zero),
and `outstanding_fees` is zero provided the accrued fees are nonnegative —
with a negative accrual (maker rebate) the fee settlement branch is
skipped and `outstanding_fees` stays negative, and partial closes at an
averaged entry price can leave rounding residue in the margin account. -/
theorem claim_C5 {ft : FuturesTypes} {D : Nat} {Q e : Int} {l : Ledger}
    {imr f0 x f1 dir : Int} {p1 : PositionInner} {l1 : Ledger}
    {p2 : PositionInner} {l2 : Ledger}
    (h1 : PositionInner.new ft D Q e l imr f0 = some (p1, l1))
    (h2 : PositionInner.decreaseContracts ft D p1 Q x l1 imr dir f1 =
      some (p2, l2)) :
    p2.quantity = 0 ∧
    (0 ≤ f0 + f1 → p2.outstandingFees = 0) ∧
    l2.posMargin = l.posMargin := by
  obtain ⟨-, -, -, -, hp1, hl1⟩ := new_spec h1
  obtain ⟨-, -, -, -, hq2, -, hfees2, -, hm2, -, -⟩ := decrease_spec h2
  subst hp1
  refine ⟨by rw [hq2]; ring, ?_, ?_⟩
  · intro hnn
    rw [hfees2]
    split
    · rfl
    · rename_i hng
      simp only [PositionInner.outstandingFees] at hng ⊢
      omega
  · rw [hm2, hl1]
    simp [Ledger.addTo]

/-- C5 counterexample: with a maker rebate the position is opened carrying
`outstanding_fees = -1`; closing it fully leaves `quantity = 0` while
`outstanding_fees = -1 ≠ 0`, refuting the claim that the invariant holds
in particular for negative accrued fees. -/
theorem claim_C5_counterexample :
    PositionInner.new .linear 0 1 100 (Ledger.init 1000) 1 (-1) =
      some (⟨1, 100, -1⟩, ⟨900, 100, 0, 0⟩) ∧
    PositionInner.decreaseContracts .linear 0 ⟨1, 100, -1⟩ 1 100
      ⟨900, 100, 0, 0⟩ 1 1 0 = some (⟨0, 100, -1⟩, ⟨1000, 0, 0, 0⟩) ∧
    ¬ ((-1 : Int) = 0) := by
  refine ⟨rfl, rfl, by decide⟩

/-- C5 witness: opening 1 contract at 100 with fee 2 and closing it fully
with fee 3 leaves quantity 0, outstanding fees 0 and the position-margin
balance back at 0. -/
theorem claim_C5_witness :
    (0 : Int) = 0 ∧ (0 : Int) = 0 ∧ (0 : Int) = 0 :=
  ⟨(@claim_C5 .linear 0 1 100 (Ledger.init 1000) 1 2 100 3 1 ⟨1, 100, 2⟩
      ⟨900, 100, 0, 0⟩ ⟨0, 100, 0⟩ ⟨995, 0, 5, 0⟩ (by decide) (by decide)).1,
   (@claim_C5 .linear 0 1 100 (Ledger.init 1000) 1 2 100 3 1 ⟨1, 100, 2⟩
      ⟨900, 100, 0, 0⟩ ⟨0, 100, 0⟩ ⟨995, 0, 5, 0⟩ (by decide) (by decide)).2.1
      (by decide),
   (@claim_C5 .linear 0 1 100 (Ledger.init 1000) 1 2 100 3 1 ⟨1, 100, 2⟩
      ⟨900, 100, 0, 0⟩ ⟨0, 100, 0⟩ ⟨995, 0, 5, 0⟩ (by decide) (by decide)).2.2⟩

/-- C6: a successful `decrease_contracts` realizes exactly
`pnl(entry_price, exit_price, side_mult * qty)` against the TREASURY
account (profits credit the wallet from the treasury, losses debit it,
zero moves nothing), and releases
`convert_from(qty, entry_price) * init_margin_req` of margin from
USER_POSITION_MARGIN back to USER_WALLET. -/
theorem claim_C6 {ft : FuturesTypes} {D : Nat} {pos : PositionInner}
    {qty x : Int} {l : Ledger} {imr dir fee : Int} {p' : PositionInner}
    {l' : Ledger}
    (h : PositionInner.decreaseContracts ft D pos qty x l imr dir fee =
      some (p', l')) :
    l'.treasury = l.treasury - pnl ft D pos.entryPrice x (if dir = 1 then qty else -qty) ∧
    l'.posMargin = l.posMargin - mulD D (convert ft D qty pos.entryPrice) imr ∧
    l'.wallet = l.wallet + pnl ft D pos.entryPrice x (if dir = 1 then qty else -qty)
      + mulD D (convert ft D qty pos.entryPrice) imr
      - (if 0 < pos.outstandingFees + fee then pos.outstandingFees + fee else 0) := by
  obtain ⟨-, -, -, -, -, -, -, hw, hm, -, ht⟩ := decrease_spec h
  exact ⟨ht, hm, hw⟩

/-- C6 witness: closing a 1-contract position entered at 100 at the exit
price 110 (scale `D = 0`) moves the +10 profit from the treasury and frees
the 100 margin to the wallet. -/
theorem claim_C6_witness :
    (-10 : Int) = 0 - pnl .linear 0 100 110 (if (1 : Int) = 1 then 1 else -1) ∧
    (0 : Int) = 100 - mulD 0 (convert .linear 0 1 100) 1 ∧
    (1010 : Int) = 900 + pnl .linear 0 100 110 (if (1 : Int) = 1 then 1 else -1)
      + mulD 0 (convert .linear 0 1 100) 1
      - (if (0 : Int) < 0 + 0 then 0 + 0 else 0) :=
  @claim_C6 .linear 0 ⟨1, 100, 0⟩ 1 110 ⟨900, 100, 0, 0⟩ 1 1 0 ⟨0, 100, 0⟩
    ⟨1010, 0, 0, -10⟩ (by decide)

/-- C7: the configuration used by `mock_exchange` in
`src/mock_exchange.rs` — initial margin rate 0.01 and maintenance margin
rate 0.02 at scale `D = 4`, leverage 1 — makes the constructor fail with
`InvalidMargin` (maintenance ≥ initial), so the mock's `.unwrap()`
panics: the test helper contradicts the constructor's documented
contract. -/
theorem claim_C7 :
    Config.new 4 1 ⟨100, 200⟩ = .error .invalidMargin := by
  rfl

/-- C8 (amended): `increase_contracts` asserts a strictly positive
quantity, so an increase by zero panics rather than completing; the
weighted-average price formula applied with zero additional weight does
return the original entry price, and an increase by any positive quantity
at the unchanged entry price leaves the entry price unchanged. -/
theorem claim_C8 (ft : FuturesTypes) (D : Nat) (pos : PositionInner)
    (l : Ledger) (imr fee price q2 : Int) (p' : PositionInner) (l' : Ledger) :
    PositionInner.increaseContracts ft D pos 0 price l imr fee = none ∧
    (0 < pos.quantity →
      newWeightedPrice pos.entryPrice pos.quantity price 0 = pos.entryPrice) ∧
    (0 < pos.quantity →
      PositionInner.increaseContracts ft D pos q2 pos.entryPrice l imr fee =
        some (p', l') →
      p'.entryPrice = pos.entryPrice) := by
  refine ⟨by simp [PositionInner.increaseContracts], ?_, ?_⟩
  · intro hQ
    unfold newWeightedPrice
    rw [mul_zero, add_zero, add_zero]
    exact roundHE_mul_self pos.entryPrice pos.quantity hQ
  · intro hQ h
    obtain ⟨hq2, -, hp, -⟩ := increase_spec h
    rw [hp]
    show newWeightedPrice pos.entryPrice pos.quantity pos.entryPrice q2 = pos.entryPrice
    unfold newWeightedPrice
    rw [show pos.entryPrice * pos.quantity + pos.entryPrice * q2 =
      pos.entryPrice * (pos.quantity + q2) from by ring]
    exact roundHE_mul_self pos.entryPrice (pos.quantity + q2) (by omega)

/-- C8 counterexample: on the position opened with quantity 1 at price
100, `increase_contracts` with quantity 0 returns `none` (the source
asserts `qty > 0` and panics), so the zero-quantity increase does not
complete with `entry_price = p` as claimed. -/
theorem claim_C8_counterexample :
    PositionInner.new .linear 0 1 100 (Ledger.init 1000) 1 0 =
      some (⟨1, 100, 0⟩, ⟨900, 100, 0, 0⟩) ∧
    PositionInner.increaseContracts .linear 0 ⟨1, 100, 0⟩ 0 150
      (Ledger.init 1000) 1 0 = none := by
  exact ⟨rfl, rfl⟩

/-- C8 witness: the amended statement evaluated on a concrete position of
quantity 1 at entry 100, increased by 2 contracts at the same price. -/
theorem claim_C8_witness :
    PositionInner.increaseContracts .linear 0 ⟨1, 100, 0⟩ 0 150
      (Ledger.init 1000) 1 0 = none ∧
    newWeightedPrice 100 1 150 0 = 100 ∧
    (100 : Int) = 100 :=
  ⟨(claim_C8 .linear 0 ⟨1, 100, 0⟩ (Ledger.init 1000) 1 0 150 2 ⟨3, 100, 0⟩
      ⟨800, 200, 0, 0⟩).1,
   (claim_C8 .linear 0 ⟨1, 100, 0⟩ (Ledger.init 1000) 1 0 150 2 ⟨3, 100, 0⟩
      ⟨800, 200, 0, 0⟩).2.1 (by decide),
   (claim_C8 .linear 0 ⟨1, 100, 0⟩ (Ledger.init 1000) 1 0 150 2 ⟨3, 100, 0⟩
      ⟨800, 200, 0, 0⟩).2.2 (by decide) (by decide)⟩

/-- C9: the linear-futures pnl is antisymmetric in the sign of the
quantity, `pnl(e, x, q) + pnl(e, x, -q) = 0`, exactly, because banker's
rounding is an odd function. -/
theorem claim_C9 (D : Nat) (e x q : Int) :
    pnl .linear D e x q + pnl .linear D e x (-q) = 0 := by
  show (mulD D q x - mulD D q e) + (mulD D (-q) x - mulD D (-q) e) = 0
  simp only [mulD, neg_mul]
  rw [roundHE_neg, roundHE_neg]
  ring

/-- C10 (amended): the three position operations are total (no assertion
or transfer `.expect` fires) under the documented preconditions
strengthened by coverage conditions for every wallet- or
position-margin-debiting transfer: the wallet covers the locked margin on
open/increase, and, for a decrease, the freed margin is strictly positive
and covered by the position-margin balance, the wallet covers a negative
realized pnl, and, after settling the pnl and the margin release, the
wallet covers strictly positive outstanding fees. -/
theorem claim_C10 (ft : FuturesTypes) (D : Nat) (pos : PositionInner)
    (l : Ledger) (imr qn en fn qi ei fi qd xd dird fd : Int) :
    (0 < qn → 0 < en → 0 < imr → imr ≤ ((10 ^ D : Nat) : Int) →
      mulD D (convert ft D qn en) imr ≤ l.wallet →
      (PositionInner.new ft D qn en l imr fn).isSome) ∧
    (0 < qi → 0 < ei → mulD D (convert ft D qi ei) imr ≤ l.wallet →
      (PositionInner.increaseContracts ft D pos qi ei l imr fi).isSome) ∧
    (0 < qd → qd ≤ pos.quantity → (dird = 1 ∨ dird = -1) →
      0 < mulD D (convert ft D qd pos.entryPrice) imr →
      mulD D (convert ft D qd pos.entryPrice) imr ≤ l.posMargin →
      (pnl ft D pos.entryPrice xd (if dird = 1 then qd else -qd) < 0 →
        -(pnl ft D pos.entryPrice xd (if dird = 1 then qd else -qd)) ≤ l.wallet) →
      (0 < pos.outstandingFees + fd →
        pos.outstandingFees + fd ≤ l.wallet
          + pnl ft D pos.entryPrice xd (if dird = 1 then qd else -qd)
          + mulD D (convert ft D qd pos.entryPrice) imr) →
      (PositionInner.decreaseContracts ft D pos qd xd l imr dird fd).isSome) :=
  ⟨fun h1 h2 h3 h4 h5 => new_isSome h1 h2 h3 h4 h5,
   fun h1 h2 h3 => increase_isSome h1 h2 h3,
   fun h1 h2 h3 h4 h5 h6 h7 => decrease_isSome h1 h2 h3 h4 h5 h6 h7⟩

/-- C10 counterexample: all documented preconditions hold — the position
is opened with positive quantity and price and the wallet exactly covers
the required margin, then is decreased with `0 < qty ≤ quantity` and
`side_mult = 1` — yet `decrease_contracts` hits a failing transfer (the
wallet cannot pay the realized loss before the margin is released) and
panics, refuting the claim that the operations never panic under the
documented preconditions alone. -/
theorem claim_C10_counterexample :
    PositionInner.new .linear 2 100 10000 (Ledger.init 10000) 100 0 =
      some (⟨100, 10000, 0⟩, ⟨0, 10000, 0, 0⟩) ∧
    PositionInner.decreaseContracts .linear 2 ⟨100, 10000, 0⟩ 100 5000
      ⟨0, 10000, 0, 0⟩ 100 1 0 = none := by
  exact ⟨rfl, rfl⟩

/-- C10 witness: the amended totality statement evaluated on a concrete
position and ledger where every coverage condition holds. -/
theorem claim_C10_witness :
    (PositionInner.new .linear 0 1 100 ⟨900, 100, 0, 0⟩ 1 0).isSome ∧
    (PositionInner.increaseContracts .linear 0 ⟨1, 100, 0⟩ 1 100
      ⟨900, 100, 0, 0⟩ 1 0).isSome ∧
    (PositionInner.decreaseContracts .linear 0 ⟨1, 100, 0⟩ 1 90
      ⟨900, 100, 0, 0⟩ 1 1 2).isSome :=
  ⟨(claim_C10 .linear 0 ⟨1, 100, 0⟩ ⟨900, 100, 0, 0⟩ 1 1 100 0 1 100 0 1 90 1 2).1
      (by decide) (by decide) (by decide) (by decide) (by decide),
   (claim_C10 .linear 0 ⟨1, 100, 0⟩ ⟨900, 100, 0, 0⟩ 1 1 100 0 1 100 0 1 90 1 2).2.1
      (by decide) (by decide) (by decide),
   (claim_C10 .linear 0 ⟨1, 100, 0⟩ ⟨900, 100, 0, 0⟩ 1 1 100 0 1 100 0 1 90 1 2).2.2
      (by decide) (by decide) (by decide) (by decide) (by decide) (by decide)
      (by decide)⟩

end Lfest
